import Mathlib

/-!
Shallow embedding of `src/Solutions/2_The_Special_Member_Functions/ResourceOwner_2.cpp`.

The file defines a class `Resource` (a wrapper around one `int`) and a class
`ResourceOwner` (an `int` id, a `std::string` name, and a raw owning pointer
`Resource* m_resource` that may be null).  We model the C++ free store as an
explicit `Heap`: a list of live cells addressed by `Nat`, together with the
history of allocated and freed addresses, so that leaks and double frees are
observable facts about a heap value.  A null pointer is `Option.none`, a valid
pointer is `some a` for an address `a`.  Each special member function of the
C++ class becomes a Lean function threading the heap explicitly.
-/

/-- `class Resource`: holds one integer payload `i_`. -/
structure Resource where
  i_ : Int
deriving DecidableEq, Repr

namespace Resource

/-- `explicit Resource(int i)`. -/
def ctor (i : Int) : Resource := ⟨i⟩

/-- `Resource(Resource const& other) : i_{ other.i_ }`. -/
def copyCtor (other : Resource) : Resource := ⟨other.i_⟩

/-- `Resource& operator=(Resource const& other) { i_ = other.i_; }`;
the result is the updated left-hand side. -/
def copyAssign (self other : Resource) : Resource := { self with i_ := other.i_ }

/-- `Resource(Resource&& other) : i_{ std::move(other.i_) }`.  Moving an `int`
copies it and leaves the donor's field unchanged, so the result is the new
object paired with the (unchanged) donor. -/
def moveCtor (other : Resource) : Resource × Resource := (⟨other.i_⟩, other)

/-- `Resource& operator=(Resource&& other) { i_ = std::move(other.i_); }`;
result: updated left-hand side paired with the donor after the move. -/
def moveAssign (self other : Resource) : Resource × Resource :=
  ({ self with i_ := other.i_ }, other)

/-- `int get() const`. -/
def get (r : Resource) : Int := r.i_

/-- `void set(int i)`. -/
def set (r : Resource) (i : Int) : Resource := { r with i_ := i }

end Resource

/-- The C++ free store: `next` is the next fresh address, `live` maps each
currently allocated address to the `Resource` stored there, `allocated`
records every address ever handed out by `new`, and `freed` records every
address ever passed to `delete` (appending again on a repeated `delete`
would make a double free visible). -/
structure Heap where
  next : Nat
  live : List (Nat × Resource)
  allocated : List Nat
  freed : List Nat
deriving DecidableEq, Repr

namespace Heap

/-- The empty free store. -/
def empty : Heap := ⟨0, [], [], []⟩

/-- `new Resource{...}`: returns the extended heap and the fresh address. -/
def alloc (h : Heap) (r : Resource) : Heap × Nat :=
  (⟨h.next + 1, (h.next, r) :: h.live, h.next :: h.allocated, h.freed⟩, h.next)

/-- `delete` on a non-null pointer: the cell leaves `live` and the address is
recorded in `freed`.  Deleting an address that is not live records a
double/invalid free in `freed` while removing nothing. -/
def free (h : Heap) (a : Nat) : Heap :=
  { h with live := h.live.filter (fun p => p.1 ≠ a), freed := a :: h.freed }

/-- `delete p` for a possibly null `p`: `delete nullptr` is a no-op. -/
def deleteP (h : Heap) (p : Option Nat) : Heap :=
  match p with
  | none => h
  | some a => h.free a

/-- Dereference `*a` (reads the live cell; dangling reads default to `⟨0⟩`,
but the ownership invariant proved below rules them out in every run). -/
def read (h : Heap) (a : Nat) : Resource :=
  ((h.live.find? (fun p => p.1 == a)).map Prod.snd).getD ⟨0⟩

/-- Store through `*a`. -/
def write (h : Heap) (a : Nat) (r : Resource) : Heap :=
  { h with live := h.live.map (fun p => if p.1 = a then (p.1, r) else p) }

/-- Addresses of the currently live cells. -/
def addrs (h : Heap) : List Nat := h.live.map Prod.fst

end Heap

/-- `class ResourceOwner`: id, name, and owning pointer (null = `none`). -/
structure ResourceOwner where
  m_id : Int
  m_name : String
  m_resource : Option Nat
deriving DecidableEq, Repr

namespace ResourceOwner

/-- `ResourceOwner(int id, std::string const& name, Resource* resource)`:
takes ownership of the caller-provided pointer without copying it. -/
def ctor (i : Int) (n : String) (r : Option Nat) : ResourceOwner := ⟨i, n, r⟩

/-- `int id() const`. -/
def id (o : ResourceOwner) : Int := o.m_id

/-- `std::string const& name() const`. -/
def name (o : ResourceOwner) : String := o.m_name

/-- `Resource* resource()`: returns the owning handle without transferring
ownership. -/
def resource (o : ResourceOwner) : Option Nat := o.m_resource

/-- `~ResourceOwner() { delete m_resource; }`. -/
def dtor (h : Heap) (o : ResourceOwner) : Heap := h.deleteP o.m_resource

/-- `ResourceOwner(ResourceOwner const& other)`: copies id and name; if
`other.m_resource != nullptr`, allocates `new Resource{ *other.m_resource }`,
otherwise the handle stays null. -/
def copyCtor (h : Heap) (other : ResourceOwner) : Heap × ResourceOwner :=
  match other.m_resource with
  | none => (h, ⟨other.m_id, other.m_name, none⟩)
  | some a =>
    let hn := h.alloc (Resource.copyCtor (h.read a))
    (hn.1, ⟨other.m_id, other.m_name, some hn.2⟩)

/-- Body of `operator=(ResourceOwner const&)` for `this != &other` (the
self-assignment guard short-circuits before this body runs; in the step
relation below the guard is the index equality test).  Copies id and name,
then the four-way resource case split of the source:
both own → `*m_resource = *other.m_resource` in place;
only `this` owns → `delete m_resource; m_resource = nullptr`;
only `other` owns → `delete nullptr` (no-op) then `m_resource = new Resource{...}`;
neither owns → handle stays null. -/
def copyAssign (h : Heap) (self other : ResourceOwner) : Heap × ResourceOwner :=
  match self.m_resource, other.m_resource with
  | some a, some b =>
    (h.write a (Resource.copyAssign (h.read a) (h.read b)), ⟨other.m_id, other.m_name, some a⟩)
  | some a, none => (h.free a, ⟨other.m_id, other.m_name, none⟩)
  | none, some b =>
    let hn := h.alloc (Resource.copyCtor (h.read b))
    (hn.1, ⟨other.m_id, other.m_name, some hn.2⟩)
  | none, none => (h, ⟨other.m_id, other.m_name, none⟩)

/-- `operator=(ResourceOwner const&)` with a fallible `new`, mirroring the
statement order of the source: `m_id` and `m_name` are assigned BEFORE the
resource case split, so when the allocation in the only-`other`-owns branch
fails (`allocOk = false`, modelling `std::bad_alloc`), the exception
propagates with id and name already overwritten.  `Except.error` carries the
heap and the left-hand object as they are at the throw point. -/
def copyAssignExc (h : Heap) (self other : ResourceOwner) (allocOk : Bool) :
    Except (Heap × ResourceOwner) (Heap × ResourceOwner) :=
  let self1 : ResourceOwner := ⟨other.m_id, other.m_name, self.m_resource⟩
  match self1.m_resource, other.m_resource with
  | some a, some b =>
    .ok (h.write a (Resource.copyAssign (h.read a) (h.read b)), ⟨self1.m_id, self1.m_name, some a⟩)
  | some a, none => .ok (h.free a, { self1 with m_resource := none })
  | none, some b =>
    if allocOk then
      let hn := h.alloc (Resource.copyCtor (h.read b))
      .ok (hn.1, { self1 with m_resource := some hn.2 })
    else
      .error (h, self1)
  | none, none => .ok (h, self1)

/-- `ResourceOwner(ResourceOwner&& other)`: copies the id, moves the name,
copies the pointer, then `other.m_resource = nullptr`.  Result: the new
object paired with the donor after the move (moved-from name modelled
empty, handle null). -/
def moveCtor (other : ResourceOwner) : ResourceOwner × ResourceOwner :=
  (⟨other.m_id, other.m_name, other.m_resource⟩, ⟨other.m_id, "", none⟩)

/-- Body of `operator=(ResourceOwner&&)` for distinct objects:
`delete m_resource`, then take id, name and pointer from `other`, then
`other.m_resource = nullptr`.  Result: heap, updated `this`, donor. -/
def moveAssign (h : Heap) (self other : ResourceOwner) :
    Heap × ResourceOwner × ResourceOwner :=
  (h.deleteP self.m_resource, ⟨other.m_id, other.m_name, other.m_resource⟩,
   ⟨other.m_id, "", none⟩)

/-- `operator=(ResourceOwner&&)` when `other` aliases `this` (self move):
`delete m_resource` frees the owned cell once; `m_id = other.m_id` and the
string self-move leave those fields as they were; `m_resource =
other.m_resource` reads the (now dangling) pointer back, and the final
`other.m_resource = nullptr` nulls `this->m_resource` through the alias. -/
def moveAssignSelf (h : Heap) (self : ResourceOwner) : Heap × ResourceOwner :=
  (h.deleteP self.m_resource, { self with m_resource := none })

/-- `void swap(ResourceOwner& other)`: exchanges `m_id`, `m_name` and
`m_resource` pairwise; touches no heap. -/
def swap (a b : ResourceOwner) : ResourceOwner × ResourceOwner :=
  (⟨b.m_id, b.m_name, b.m_resource⟩, ⟨a.m_id, a.m_name, a.m_resource⟩)

/-- `owner.resource()->set(v)` as used by the driver (no-op on a null
handle, which in C++ would be undefined; never reached under the invariant). -/
def setResource (h : Heap) (o : ResourceOwner) (v : Int) : Heap :=
  match o.m_resource with
  | none => h
  | some a => h.write a ((h.read a).set v)

end ResourceOwner

/-- `void swap(ResourceOwner& a, ResourceOwner& b) { a.swap(b); }` — the free
function delegates to the member swap. -/
def swapFree (a b : ResourceOwner) : ResourceOwner × ResourceOwner :=
  ResourceOwner.swap a b

/-!
### Operation sequences

A `World` is the free store together with the live `ResourceOwner` objects of
a program run, identified by their position in the list.  `Op` enumerates the
operations a client may perform; `step` executes one against the world,
mirroring the C++ member functions (including the `this != &other` guard of
copy assignment and the behaviour of unguarded self move assignment).
Operations naming an out-of-range object leave the world unchanged.
-/

/-- The free store plus the live owners of a run. -/
structure World where
  heap : Heap
  owners : List ResourceOwner
deriving DecidableEq, Repr

/-- One client operation on `World`, each indexing owners by position. -/
inductive Op where
  | newOwner (i : Int) (n : String) (v : Option Int)
  | copyCtor (i : Nat)
  | moveCtor (i : Nat)
  | copyAssign (i j : Nat)
  | moveAssign (i j : Nat)
  | swapOp (i j : Nat)
  | setVal (i : Nat) (v : Int)
  | destroy (i : Nat)
deriving DecidableEq, Repr

/-- The world with no heap cells and no owners. -/
def World.init : World := ⟨Heap.empty, []⟩

/-- Execute one operation.  `newOwner i n (some v)` is
`ResourceOwner(i, n, new Resource(v))`; `newOwner i n none` passes `nullptr`.
`copyAssign i i` hits the `this != &other` guard and does nothing;
`moveAssign i i` runs the unguarded self-move body; `swapOp i i` swaps every
field with itself, a no-op.  `destroy i` runs the destructor and removes the
object. -/
def World.step (w : World) : Op → World
  | .newOwner i n v =>
    match v with
    | none => ⟨w.heap, w.owners ++ [ResourceOwner.ctor i n none]⟩
    | some x =>
      let hn := w.heap.alloc (Resource.ctor x)
      ⟨hn.1, w.owners ++ [ResourceOwner.ctor i n (some hn.2)]⟩
  | .copyCtor i =>
    match w.owners[i]? with
    | none => w
    | some o =>
      let hb := ResourceOwner.copyCtor w.heap o
      ⟨hb.1, w.owners ++ [hb.2]⟩
  | .moveCtor i =>
    match w.owners[i]? with
    | none => w
    | some o =>
      let bo := ResourceOwner.moveCtor o
      ⟨w.heap, (w.owners.set i bo.2) ++ [bo.1]⟩
  | .copyAssign i j =>
    if i = j then w
    else
      match w.owners[i]?, w.owners[j]? with
      | some s, some o =>
        let hs := ResourceOwner.copyAssign w.heap s o
        ⟨hs.1, w.owners.set i hs.2⟩
      | _, _ => w
  | .moveAssign i j =>
    if i = j then
      match w.owners[i]? with
      | none => w
      | some s =>
        let hs := ResourceOwner.moveAssignSelf w.heap s
        ⟨hs.1, w.owners.set i hs.2⟩
    else
      match w.owners[i]?, w.owners[j]? with
      | some s, some o =>
        let hso := ResourceOwner.moveAssign w.heap s o
        ⟨hso.1, (w.owners.set i hso.2.1).set j hso.2.2⟩
      | _, _ => w
  | .swapOp i j =>
    if i = j then w
    else
      match w.owners[i]?, w.owners[j]? with
      | some a, some b =>
        let ab := ResourceOwner.swap a b
        ⟨w.heap, (w.owners.set i ab.1).set j ab.2⟩
      | _, _ => w
  | .setVal i v =>
    match w.owners[i]? with
    | none => w
    | some o => ⟨ResourceOwner.setResource w.heap o v, w.owners⟩
  | .destroy i =>
    match w.owners[i]? with
    | none => w
    | some o => ⟨ResourceOwner.dtor w.heap o, w.owners.eraseIdx i⟩

/-- Run a whole operation sequence from a world. -/
def World.run (w : World) (ops : List Op) : World := ops.foldl World.step w

/-- Destruct every remaining owner (end of scope for all of them). -/
def World.destroyAll (w : World) : World :=
  ⟨w.owners.foldl ResourceOwner.dtor w.heap, []⟩

/-- The owning handles currently held by a list of owners (nulls skipped). -/
def handlesOf (l : List ResourceOwner) : List Nat :=
  l.filterMap ResourceOwner.resource

/-- The handles of the world's owners. -/
def World.handles (w : World) : List Nat := handlesOf w.owners

/-- Heap/handle invariant of a run, relative to the list `H` of handles held
by the live owners: live addresses are distinct, the held handles are exactly
the live addresses (one owner per allocation), every address ever allocated is
either still live or freed but never both, no address is freed twice, and all
allocated addresses are below the allocation cursor. -/
structure HeapInv (h : Heap) (H : List Nat) : Prop where
  keysNodup : h.addrs.Nodup
  perm : H.Perm h.addrs
  allocNodup : h.allocated.Nodup
  freedNodup : h.freed.Nodup
  liveSub : ∀ a ∈ h.addrs, a ∈ h.allocated
  freedSub : ∀ a ∈ h.freed, a ∈ h.allocated
  allocSplit : ∀ a ∈ h.allocated, a ∈ h.addrs ∨ a ∈ h.freed
  disj : ∀ a ∈ h.addrs, a ∉ h.freed
  bound : ∀ a ∈ h.allocated, a < h.next

/-- Well-formedness of a world: the heap invariant relative to the handles
actually held by the world's owners. -/
def World.WF (w : World) : Prop := HeapInv w.heap w.handles

/-!
## Heap lemmas
-/

theorem list_write_map_fst (l : List (Nat × Resource)) (a : Nat) (r : Resource) :
    (l.map (fun p => if p.1 = a then (p.1, r) else p)).map Prod.fst = l.map Prod.fst := by
  induction l with
  | nil => rfl
  | cons x xs ih =>
    by_cases hx : x.1 = a <;> simp [hx, ih]

theorem Heap.addrs_write (h : Heap) (a : Nat) (r : Resource) :
    (h.write a r).addrs = h.addrs :=
  list_write_map_fst h.live a r

theorem Heap.allocated_write (h : Heap) (a : Nat) (r : Resource) :
    (h.write a r).allocated = h.allocated := rfl

theorem Heap.freed_write (h : Heap) (a : Nat) (r : Resource) :
    (h.write a r).freed = h.freed := rfl

theorem Heap.alloc_snd (h : Heap) (r : Resource) : (h.alloc r).2 = h.next := rfl

theorem Heap.read_alloc_self (h : Heap) (r : Resource) :
    (h.alloc r).1.read h.next = r := by
  simp [Heap.alloc, Heap.read]

theorem Heap.read_alloc_ne (h : Heap) (r : Resource) (a : Nat) (hne : a ≠ h.next) :
    (h.alloc r).1.read a = h.read a := by
  simp [Heap.alloc, Heap.read, List.find?_cons, Ne.symm hne]

theorem list_find_write_self (l : List (Nat × Resource)) (a : Nat) (r : Resource)
    (hmem : a ∈ l.map Prod.fst) :
    (l.map (fun p => if p.1 = a then (p.1, r) else p)).find? (fun p => p.1 == a)
      = some (a, r) := by
  induction l with
  | nil => simp at hmem
  | cons x xs ih =>
    by_cases hx : x.1 = a
    · simp [List.find?_cons, hx]
    · have : a ∈ xs.map Prod.fst := by
        rcases List.mem_cons.mp hmem with h1 | h1
        · exact absurd h1.symm hx
        · exact h1
      simp [List.find?_cons, hx, ih this]

theorem Heap.read_write_self (h : Heap) (a : Nat) (r : Resource) (hmem : a ∈ h.addrs) :
    (h.write a r).read a = r := by
  simp [Heap.read, Heap.write, list_find_write_self h.live a r hmem]

theorem list_find_write_ne (l : List (Nat × Resource)) (a b : Nat) (r : Resource)
    (hne : a ≠ b) :
    (l.map (fun p => if p.1 = b then (p.1, r) else p)).find? (fun p => p.1 == a)
      = l.find? (fun p => p.1 == a) := by
  induction l with
  | nil => rfl
  | cons x xs ih =>
    simp only [List.map_cons, List.find?]
    by_cases hx : x.1 = b
    · rw [if_pos hx, hx]
      have hba : (b == a) = false := beq_false_of_ne (Ne.symm hne)
      simp only [hba]
      exact ih
    · rw [if_neg hx]
      by_cases hxa : x.1 = a
      · have hba : (x.1 == a) = true := by rw [hxa]; exact beq_self_eq_true a
        simp only [hba]
      · have hba : (x.1 == a) = false := beq_false_of_ne hxa
        simp only [hba]
        exact ih

theorem Heap.read_write_ne (h : Heap) (a b : Nat) (r : Resource) (hne : a ≠ b) :
    (h.write b r).read a = h.read a := by
  simp [Heap.read, Heap.write, list_find_write_ne h.live a b r hne]

theorem Heap.mem_addrs_free (h : Heap) (a x : Nat) :
    x ∈ (h.free a).addrs ↔ x ∈ h.addrs ∧ x ≠ a := by
  simp only [Heap.free, Heap.addrs, List.mem_map, List.mem_filter]
  constructor
  · rintro ⟨p, ⟨hp, hpa⟩, rfl⟩
    exact ⟨⟨p, hp, rfl⟩, by simpa using hpa⟩
  · rintro ⟨⟨p, hp, rfl⟩, hxa⟩
    exact ⟨p, ⟨hp, by simpa using hxa⟩, rfl⟩

theorem Heap.not_mem_addrs_free (h : Heap) (a : Nat) : a ∉ (h.free a).addrs := by
  intro hmem
  exact ((Heap.mem_addrs_free h a a).mp hmem).2 rfl

theorem Heap.addrs_free_sublist (h : Heap) (a : Nat) :
    (h.free a).addrs.Sublist h.addrs :=
  (List.filter_sublist h.live).map Prod.fst

theorem Heap.freed_free (h : Heap) (a : Nat) : (h.free a).freed = a :: h.freed := rfl

theorem Heap.allocated_free (h : Heap) (a : Nat) : (h.free a).allocated = h.allocated := rfl

/-!
## Handle bookkeeping lemmas
-/

theorem handlesOf_cons (o : ResourceOwner) (l : List ResourceOwner) :
    handlesOf (o :: l) = o.m_resource.toList ++ handlesOf l := by
  cases ho : o.m_resource <;>
    simp [handlesOf, List.filterMap_cons, ResourceOwner.resource, ho]

theorem handlesOf_append (l l' : List ResourceOwner) :
    handlesOf (l ++ l') = handlesOf l ++ handlesOf l' := by
  simp [handlesOf, List.filterMap_append]

theorem handlesOf_set (l : List ResourceOwner) (i : Nat) (o o' : ResourceOwner)
    (hi : l[i]? = some o) :
    (o.m_resource.toList ++ handlesOf (l.set i o')).Perm
      (o'.m_resource.toList ++ handlesOf l) := by
  induction l generalizing i with
  | nil => simp at hi
  | cons x xs ih =>
    cases i with
    | zero =>
      simp only [List.getElem?_cons_zero, Option.some.injEq] at hi
      subst hi
      simp only [List.set_cons_zero, handlesOf_cons]
      exact List.perm_append_comm_assoc _ _ _
    | succ n =>
      simp only [List.getElem?_cons_succ] at hi
      simp only [List.set_cons_succ, handlesOf_cons]
      exact (List.perm_append_comm_assoc _ _ _).trans
        ((List.Perm.append_left _ (ih n hi)).trans
          (List.perm_append_comm_assoc _ _ _))

theorem handlesOf_eraseIdx (l : List ResourceOwner) (i : Nat) (o : ResourceOwner)
    (hi : l[i]? = some o) :
    (o.m_resource.toList ++ handlesOf (l.eraseIdx i)).Perm (handlesOf l) := by
  induction l generalizing i with
  | nil => simp at hi
  | cons x xs ih =>
    cases i with
    | zero =>
      simp only [List.getElem?_cons_zero, Option.some.injEq] at hi
      subst hi
      simp [List.eraseIdx, handlesOf_cons]
    | succ n =>
      simp only [List.getElem?_cons_succ] at hi
      simp only [List.eraseIdx, handlesOf_cons]
      exact (List.perm_append_comm_assoc _ _ _).trans
        (List.Perm.append_left _ (ih n hi))

/-!
## Invariant transition lemmas
-/

theorem HeapInv.congr {h : Heap} {H H' : List Nat} (hp : H'.Perm H) (inv : HeapInv h H) :
    HeapInv h H' :=
  ⟨inv.keysNodup, hp.trans inv.perm, inv.allocNodup, inv.freedNodup, inv.liveSub,
   inv.freedSub, inv.allocSplit, inv.disj, inv.bound⟩

theorem HeapInv.write {h : Heap} {H : List Nat} (inv : HeapInv h H) (a : Nat) (r : Resource) :
    HeapInv (h.write a r) H := by
  refine ⟨?_, ?_, inv.allocNodup, inv.freedNodup, ?_, ?_, ?_, ?_, ?_⟩
  · rw [Heap.addrs_write]
    exact inv.keysNodup
  · rw [Heap.addrs_write]
    exact inv.perm
  · rw [Heap.addrs_write]
    exact inv.liveSub
  · exact inv.freedSub
  · rw [Heap.addrs_write]
    exact inv.allocSplit
  · rw [Heap.addrs_write]
    exact inv.disj
  · exact inv.bound

theorem HeapInv.alloc {h : Heap} {H : List Nat} (inv : HeapInv h H) (r : Resource) :
    HeapInv (h.alloc r).1 (h.next :: H) := by
  have hnotalloc : h.next ∉ h.allocated := fun hmem => lt_irrefl _ (inv.bound _ hmem)
  have hnotaddrs : h.next ∉ h.addrs := fun hmem => hnotalloc (inv.liveSub _ hmem)
  have hnotfreed : h.next ∉ h.freed := fun hmem => hnotalloc (inv.freedSub _ hmem)
  have haddrs : (h.alloc r).1.addrs = h.next :: h.addrs := rfl
  refine ⟨?_, ?_, ?_, inv.freedNodup, ?_, ?_, ?_, ?_, ?_⟩
  · rw [haddrs]
    exact List.nodup_cons.mpr ⟨hnotaddrs, inv.keysNodup⟩
  · rw [haddrs]
    exact inv.perm.cons h.next
  · exact List.nodup_cons.mpr ⟨hnotalloc, inv.allocNodup⟩
  · intro a hmem
    rw [haddrs] at hmem
    rcases List.mem_cons.mp hmem with rfl | hmem
    · exact List.mem_cons_self _ _
    · exact List.mem_cons_of_mem _ (inv.liveSub a hmem)
  · intro a hmem
    exact List.mem_cons_of_mem _ (inv.freedSub a hmem)
  · intro a hmem
    rcases List.mem_cons.mp hmem with rfl | hmem
    · left
      rw [haddrs]
      exact List.mem_cons_self _ _
    · rcases inv.allocSplit a hmem with h1 | h1
      · left
        rw [haddrs]
        exact List.mem_cons_of_mem _ h1
      · right
        exact h1
  · intro a hmem
    rw [haddrs] at hmem
    rcases List.mem_cons.mp hmem with rfl | hmem
    · exact hnotfreed
    · exact inv.disj a hmem
  · intro a hmem
    rcases List.mem_cons.mp hmem with rfl | hmem
    · exact Nat.lt_succ_self _
    · exact Nat.lt_succ_of_lt (inv.bound a hmem)

theorem HeapInv.free {h : Heap} {a : Nat} {H : List Nat} (inv : HeapInv h (a :: H)) :
    HeapInv (h.free a) H := by
  have hmem : a ∈ h.addrs := inv.perm.subset (List.mem_cons_self a H)
  have hsub : (h.free a).addrs.Sublist h.addrs := Heap.addrs_free_sublist h a
  have hnodup' : (h.free a).addrs.Nodup := inv.keysNodup.sublist hsub
  have e3 : H.Perm (h.addrs.erase a) :=
    List.Perm.cons_inv (inv.perm.trans (List.perm_cons_erase hmem))
  have e4 : (h.free a).addrs.Perm (h.addrs.erase a) := by
    refine (List.perm_ext_iff_of_nodup hnodup' (inv.keysNodup.erase a)).mpr ?_
    intro x
    rw [Heap.mem_addrs_free, List.Nodup.mem_erase_iff inv.keysNodup]
    exact and_comm
  refine ⟨hnodup', e3.trans e4.symm, inv.allocNodup, ?_, ?_, ?_, ?_, ?_, ?_⟩
  · rw [Heap.freed_free]
    exact List.nodup_cons.mpr ⟨inv.disj a hmem, inv.freedNodup⟩
  · intro x hx
    exact inv.liveSub x (hsub.subset hx)
  · intro x hx
    rw [Heap.freed_free] at hx
    rcases List.mem_cons.mp hx with rfl | hx
    · exact inv.liveSub x hmem
    · exact inv.freedSub x hx
  · intro x hx
    rcases inv.allocSplit x hx with h1 | h1
    · by_cases hxa : x = a
      · subst hxa
        right
        rw [Heap.freed_free]
        exact List.mem_cons_self _ _
      · left
        exact (Heap.mem_addrs_free h a x).mpr ⟨h1, hxa⟩
    · right
      rw [Heap.freed_free]
      exact List.mem_cons_of_mem _ h1
  · intro x hx
    rcases (Heap.mem_addrs_free h a x).mp hx with ⟨hxaddrs, hxa⟩
    rw [Heap.freed_free]
    intro hcon
    rcases List.mem_cons.mp hcon with rfl | hcon
    · exact hxa rfl
    · exact inv.disj x hxaddrs hcon
  · intro x hx
    exact inv.bound x hx

theorem HeapInv.deletePtr {h : Heap} {p : Option Nat} {H : List Nat}
    (inv : HeapInv h (p.toList ++ H)) : HeapInv (h.deleteP p) H := by
  cases p with
  | none => exact inv
  | some a => exact HeapInv.free inv

theorem handlesOf_singleton (o : ResourceOwner) :
    handlesOf [o] = o.m_resource.toList := by
  rw [handlesOf_cons]
  simp [handlesOf]

theorem World.WF_mk {h : Heap} {l : List ResourceOwner} (inv : HeapInv h (handlesOf l)) :
    (World.mk h l).WF := inv

theorem World.WF_init : World.init.WF := by
  refine ⟨?_, ?_, ?_, ?_, ?_, ?_, ?_, ?_, ?_⟩ <;>
    simp [World.init, Heap.empty, World.handles, handlesOf, Heap.addrs]

/-- Every single operation preserves the ownership invariant. -/
theorem World.WF_step {w : World} (wf : w.WF) (op : Op) : (w.step op).WF := by
  have wfh : HeapInv w.heap (handlesOf w.owners) := wf
  cases op with
  | newOwner i n v =>
    cases v with
    | none =>
      simp only [World.step]
      refine World.WF_mk (HeapInv.congr ?_ wfh)
      rw [handlesOf_append, handlesOf_singleton]
      simp [ResourceOwner.ctor]
    | some x =>
      simp only [World.step]
      refine World.WF_mk (HeapInv.congr ?_ (HeapInv.alloc wfh (Resource.ctor x)))
      rw [handlesOf_append, handlesOf_singleton]
      simp only [ResourceOwner.ctor, Heap.alloc_snd, Option.toList]
      exact List.perm_append_comm
  | copyCtor i =>
    rcases hi : w.owners[i]? with _ | o
    · simp only [World.step, hi]
      exact wf
    · simp only [World.step, hi]
      rcases ho : o.m_resource with _ | a
      · simp only [ResourceOwner.copyCtor, ho]
        refine World.WF_mk (HeapInv.congr ?_ wfh)
        rw [handlesOf_append, handlesOf_singleton]
        simp
      · simp only [ResourceOwner.copyCtor, ho]
        refine World.WF_mk (HeapInv.congr ?_ (HeapInv.alloc wfh _))
        rw [handlesOf_append, handlesOf_singleton]
        simp only [Heap.alloc_snd, Option.toList]
        exact List.perm_append_comm
  | moveCtor i =>
    rcases hi : w.owners[i]? with _ | o
    · simp only [World.step, hi]
      exact wf
    · simp only [World.step, hi]
      refine World.WF_mk (HeapInv.congr ?_ wfh)
      rw [handlesOf_append, handlesOf_singleton]
      have hset := handlesOf_set w.owners i o (ResourceOwner.moveCtor o).2 hi
      have hset' : (o.m_resource.toList
            ++ handlesOf (w.owners.set i (ResourceOwner.moveCtor o).2)).Perm
          (handlesOf w.owners) := by
        simpa [ResourceOwner.moveCtor] using hset
      exact List.perm_append_comm.trans hset'
  | copyAssign i j =>
    by_cases hij : i = j
    · simp only [World.step, if_pos hij]
      exact wf
    · simp only [World.step, if_neg hij]
      rcases hi : w.owners[i]? with _ | s <;> rcases hj : w.owners[j]? with _ | o <;>
        simp only [hi, hj]
      · exact wf
      · exact wf
      · exact wf
      · rcases hs : s.m_resource with _ | a <;> rcases ho : o.m_resource with _ | b <;>
          simp only [ResourceOwner.copyAssign, hs, ho]
        · refine World.WF_mk (HeapInv.congr ?_ wfh)
          have hset := handlesOf_set w.owners i s
            (⟨o.m_id, o.m_name, none⟩ : ResourceOwner) hi
          rw [hs] at hset
          simpa using hset
        · refine World.WF_mk (HeapInv.congr ?_
            (HeapInv.alloc wfh (Resource.copyCtor (w.heap.read b))))
          have hset := handlesOf_set w.owners i s
            (⟨o.m_id, o.m_name,
              some (w.heap.alloc (Resource.copyCtor (w.heap.read b))).2⟩ : ResourceOwner) hi
          rw [hs] at hset
          simp only [Heap.alloc_snd] at hset
          simpa using hset
        · refine World.WF_mk (HeapInv.free (HeapInv.congr ?_ wfh))
          have hset := handlesOf_set w.owners i s
            (⟨o.m_id, o.m_name, none⟩ : ResourceOwner) hi
          rw [hs] at hset
          simpa using hset
        · refine World.WF_mk (HeapInv.congr ?_
            (HeapInv.write wfh a (Resource.copyAssign (w.heap.read a) (w.heap.read b))))
          have hset := handlesOf_set w.owners i s
            (⟨o.m_id, o.m_name, some a⟩ : ResourceOwner) hi
          rw [hs] at hset
          have hset' : (a :: handlesOf (w.owners.set i ⟨o.m_id, o.m_name, some a⟩)).Perm
              (a :: handlesOf w.owners) := by simpa using hset
          exact List.Perm.cons_inv hset'
  | moveAssign i j =>
    by_cases hij : i = j
    · subst hij
      simp only [World.step, if_pos rfl]
      rcases hi : w.owners[i]? with _ | s
      · simp only [hi]
        exact wf
      · simp only [hi, ResourceOwner.moveAssignSelf]
        refine World.WF_mk (HeapInv.deletePtr (HeapInv.congr ?_ wfh))
        have hset := handlesOf_set w.owners i s { s with m_resource := none } hi
        simpa using hset
    · simp only [World.step, if_neg hij]
      rcases hi : w.owners[i]? with _ | s <;> rcases hj : w.owners[j]? with _ | o <;>
        simp only [hi, hj]
      · exact wf
      · exact wf
      · exact wf
      · simp only [ResourceOwner.moveAssign]
        refine World.WF_mk (HeapInv.deletePtr (HeapInv.congr ?_ wfh))
        have hj' : (w.owners.set i
            (⟨o.m_id, o.m_name, o.m_resource⟩ : ResourceOwner))[j]? = some o := by
          rw [List.getElem?_set_ne hij]
          exact hj
        have h1 : (s.m_resource.toList
              ++ handlesOf (w.owners.set i ⟨o.m_id, o.m_name, o.m_resource⟩)).Perm
            (o.m_resource.toList ++ handlesOf w.owners) :=
          handlesOf_set w.owners i s (⟨o.m_id, o.m_name, o.m_resource⟩ : ResourceOwner) hi
        have h2 : (o.m_resource.toList
              ++ handlesOf ((w.owners.set i ⟨o.m_id, o.m_name, o.m_resource⟩).set j
                ⟨o.m_id, "", none⟩)).Perm
            (handlesOf (w.owners.set i ⟨o.m_id, o.m_name, o.m_resource⟩)) := by
          simpa using handlesOf_set (w.owners.set i ⟨o.m_id, o.m_name, o.m_resource⟩) j o
            (⟨o.m_id, "", none⟩ : ResourceOwner) hj'
        have key : (o.m_resource.toList ++ (s.m_resource.toList
              ++ handlesOf ((w.owners.set i ⟨o.m_id, o.m_name, o.m_resource⟩).set j
                ⟨o.m_id, "", none⟩))).Perm
            (o.m_resource.toList ++ handlesOf w.owners) :=
          (List.perm_append_comm_assoc _ _ _).trans
            ((List.Perm.append_left _ h2).trans h1)
        exact (List.perm_append_left_iff _).mp key
  | swapOp i j =>
    by_cases hij : i = j
    · simp only [World.step, if_pos hij]
      exact wf
    · simp only [World.step, if_neg hij]
      rcases hi : w.owners[i]? with _ | a <;> rcases hj : w.owners[j]? with _ | b <;>
        simp only [hi, hj]
      · exact wf
      · exact wf
      · exact wf
      · simp only [ResourceOwner.swap]
        refine World.WF_mk (HeapInv.congr ?_ wfh)
        have hj' : (w.owners.set i
            (⟨b.m_id, b.m_name, b.m_resource⟩ : ResourceOwner))[j]? = some b := by
          rw [List.getElem?_set_ne hij]
          exact hj
        have h1 : (a.m_resource.toList
              ++ handlesOf (w.owners.set i ⟨b.m_id, b.m_name, b.m_resource⟩)).Perm
            (b.m_resource.toList ++ handlesOf w.owners) :=
          handlesOf_set w.owners i a (⟨b.m_id, b.m_name, b.m_resource⟩ : ResourceOwner) hi
        have h2 : (b.m_resource.toList
              ++ handlesOf ((w.owners.set i ⟨b.m_id, b.m_name, b.m_resource⟩).set j
                ⟨a.m_id, a.m_name, a.m_resource⟩)).Perm
            (a.m_resource.toList
              ++ handlesOf (w.owners.set i ⟨b.m_id, b.m_name, b.m_resource⟩)) :=
          handlesOf_set (w.owners.set i ⟨b.m_id, b.m_name, b.m_resource⟩) j b
            (⟨a.m_id, a.m_name, a.m_resource⟩ : ResourceOwner) hj'
        exact (List.perm_append_left_iff _).mp (h2.trans h1)
  | setVal i v =>
    rcases hi : w.owners[i]? with _ | o
    · simp only [World.step, hi]
      exact wf
    · simp only [World.step, hi, ResourceOwner.setResource]
      rcases ho : o.m_resource with _ | a
      · exact wf
      · exact World.WF_mk (HeapInv.write wfh a ((w.heap.read a).set v))
  | destroy i =>
    rcases hi : w.owners[i]? with _ | o
    · simp only [World.step, hi]
      exact wf
    · simp only [World.step, hi, ResourceOwner.dtor]
      refine World.WF_mk (HeapInv.deletePtr (HeapInv.congr ?_ wfh))
      exact handlesOf_eraseIdx w.owners i o hi

/-- The invariant holds after any operation sequence from any well-formed
start. -/
theorem World.WF_run {w : World} (wf : w.WF) (ops : List Op) : (w.run ops).WF := by
  induction ops generalizing w with
  | nil => exact wf
  | cons op ops ih => exact ih (World.WF_step wf op)

theorem HeapInv.foldDtor :
    ∀ (l : List ResourceOwner) (h : Heap) (K : List Nat),
      HeapInv h (handlesOf l ++ K) → HeapInv (l.foldl ResourceOwner.dtor h) K
  | [], h, K, inv => inv
  | o :: l, h, K, inv => by
    rw [handlesOf_cons, List.append_assoc] at inv
    exact HeapInv.foldDtor l _ K (HeapInv.deletePtr inv)

/-- Destroying every remaining owner preserves the invariant, now relative to
the empty handle list. -/
theorem World.WF_destroyAll {w : World} (wf : w.WF) : w.destroyAll.WF := by
  refine World.WF_mk (HeapInv.foldDtor w.owners w.heap (handlesOf []) ?_)
  have wfh : HeapInv w.heap (handlesOf w.owners) := wf
  rw [show handlesOf ([] : List ResourceOwner) = [] from rfl, List.append_nil]
  exact wfh

/-!
## Claims about the individual special member functions
-/

/-- C1: across any finite sequence of constructions, copies, moves,
assignments, swaps and destructions starting from the empty world, exactly
one live owner handle references any live allocation, and after destroying
every remaining owner no cell is live (nothing leaks) and every address ever
allocated appears exactly once in the free history (each allocation is
released exactly once, never twice). -/
theorem c1_release_exactly_once (ops : List Op) (a : Nat) :
    (a ∈ (World.run World.init ops).heap.addrs →
      (World.run World.init ops).handles.count a = 1) ∧
    (World.run World.init ops).destroyAll.heap.live = [] ∧
    (a ∈ (World.run World.init ops).destroyAll.heap.allocated →
      (World.run World.init ops).destroyAll.heap.freed.count a = 1) := by
  have wf : HeapInv (World.run World.init ops).heap (World.run World.init ops).handles :=
    World.WF_run World.WF_init ops
  have wfd : HeapInv (World.run World.init ops).destroyAll.heap
      (World.run World.init ops).destroyAll.handles :=
    World.WF_destroyAll (World.WF_run World.WF_init ops)
  have hde : (World.run World.init ops).destroyAll.handles = [] := rfl
  rw [hde] at wfd
  have haddrs0 : (World.run World.init ops).destroyAll.heap.addrs = [] :=
    (wfd.perm.nil_eq).symm
  refine ⟨?_, ?_, ?_⟩
  · intro ha
    have hnd : (World.run World.init ops).handles.Nodup :=
      wf.perm.symm.nodup wf.keysNodup
    have hmem : a ∈ (World.run World.init ops).handles := wf.perm.symm.subset ha
    exact List.count_eq_one_of_mem hnd hmem
  · exact List.map_eq_nil_iff.mp haddrs0
  · intro ha
    rcases wfd.allocSplit a ha with h1 | h1
    · rw [haddrs0] at h1
      simp at h1
    · exact List.count_eq_one_of_mem wfd.freedNodup h1

/-- Witness for `c1_release_exactly_once`: the driver's scenario — construct,
copy construct, set, copy assign, set, move construct, set, move assign —
then destroy everything. -/
theorem c1_release_exactly_once_witness :
    (0 ∈ (World.run World.init [Op.newOwner 1 "id1" (some 101), Op.copyCtor 0,
        Op.setVal 0 202, Op.copyAssign 1 0, Op.setVal 0 303, Op.moveCtor 0,
        Op.setVal 1 404, Op.moveAssign 0 1]).heap.addrs ∧
      (World.run World.init [Op.newOwner 1 "id1" (some 101), Op.copyCtor 0,
        Op.setVal 0 202, Op.copyAssign 1 0, Op.setVal 0 303, Op.moveCtor 0,
        Op.setVal 1 404, Op.moveAssign 0 1]).handles.count 0 = 1) ∧
    (World.run World.init [Op.newOwner 1 "id1" (some 101), Op.copyCtor 0,
        Op.setVal 0 202, Op.copyAssign 1 0, Op.setVal 0 303, Op.moveCtor 0,
        Op.setVal 1 404, Op.moveAssign 0 1]).destroyAll.heap.live = [] ∧
    (0 ∈ (World.run World.init [Op.newOwner 1 "id1" (some 101), Op.copyCtor 0,
        Op.setVal 0 202, Op.copyAssign 1 0, Op.setVal 0 303, Op.moveCtor 0,
        Op.setVal 1 404, Op.moveAssign 0 1]).destroyAll.heap.allocated ∧
      (World.run World.init [Op.newOwner 1 "id1" (some 101), Op.copyCtor 0,
        Op.setVal 0 202, Op.copyAssign 1 0, Op.setVal 0 303, Op.moveCtor 0,
        Op.setVal 1 404, Op.moveAssign 0 1]).destroyAll.heap.freed.count 0 = 1) :=
  ⟨⟨by decide,
    (c1_release_exactly_once [Op.newOwner 1 "id1" (some 101), Op.copyCtor 0,
      Op.setVal 0 202, Op.copyAssign 1 0, Op.setVal 0 303, Op.moveCtor 0,
      Op.setVal 1 404, Op.moveAssign 0 1] 0).1 (by decide)⟩,
   (c1_release_exactly_once [Op.newOwner 1 "id1" (some 101), Op.copyCtor 0,
      Op.setVal 0 202, Op.copyAssign 1 0, Op.setVal 0 303, Op.moveCtor 0,
      Op.setVal 1 404, Op.moveAssign 0 1] 0).2.1,
   by decide,
   (c1_release_exactly_once [Op.newOwner 1 "id1" (some 101), Op.copyCtor 0,
      Op.setVal 0 202, Op.copyAssign 1 0, Op.setVal 0 303, Op.moveCtor 0,
      Op.setVal 1 404, Op.moveAssign 0 1] 0).2.2 (by decide)⟩

/-- C10: `Resource`'s move constructor and move assignment are observably
equivalent to its copy constructor and copy assignment: the constructed or
assigned object carries the donor's payload, and the donor (an `int` move is
a copy) is left unchanged, so `get()` on the donor still returns its pre-move
value. -/
theorem c10_resource_move_equals_copy (r s : Resource) :
    (Resource.moveCtor r).1 = Resource.copyCtor r ∧
    (Resource.moveCtor r).1.get = r.get ∧
    (Resource.moveCtor r).2 = r ∧
    (Resource.moveCtor r).2.get = r.get ∧
    (Resource.moveAssign s r).1 = Resource.copyAssign s r ∧
    (Resource.moveAssign s r).1.get = r.get ∧
    (Resource.moveAssign s r).2 = r ∧
    (Resource.moveAssign s r).2.get = r.get :=
  ⟨rfl, rfl, rfl, rfl, rfl, rfl, rfl, rfl⟩

/-- C9: `swap` exchanges id, name and resource handle pairwise, touches no
heap (so it cannot throw or allocate: `swapOp` leaves the heap, in particular
its `allocated` history, unchanged), is an involution, and the free function
`swap(a, b)` has exactly the effect of the member swap. -/
theorem c9_swap_involution (a b : ResourceOwner) (w : World) (i j : Nat) :
    (ResourceOwner.swap a b).1.m_id = b.m_id ∧
    (ResourceOwner.swap a b).1.m_name = b.m_name ∧
    (ResourceOwner.swap a b).1.m_resource = b.m_resource ∧
    (ResourceOwner.swap a b).2.m_id = a.m_id ∧
    (ResourceOwner.swap a b).2.m_name = a.m_name ∧
    (ResourceOwner.swap a b).2.m_resource = a.m_resource ∧
    ResourceOwner.swap (ResourceOwner.swap a b).1 (ResourceOwner.swap a b).2 = (a, b) ∧
    swapFree a b = ResourceOwner.swap a b ∧
    (World.step w (Op.swapOp i j)).heap = w.heap := by
  refine ⟨rfl, rfl, rfl, rfl, rfl, rfl, rfl, rfl, ?_⟩
  simp only [World.step]
  by_cases hij : i = j
  · simp [hij]
  · simp only [if_neg hij]
    rcases hi : w.owners[i]? with _ | oa <;> rcases hj : w.owners[j]? with _ | ob <;> simp

/-- C6: self copy assignment hits the `this != &other` guard and is a
complete no-op: the world (owners and heap, hence id, name, handle, resource
value, and the allocation/free histories) is unchanged. -/
theorem c6_self_copy_assign_noop (w : World) (i : Nat) :
    World.step w (Op.copyAssign i i) = w := by
  simp [World.step]

/-- C5: move assignment between distinct objects first releases the resource
`this` owns (if any: nothing is freed when the handle is null, and the old
address leaves the live set and is recorded freed when it is not), then takes
id, name and resource handle from `other`, and nulls `other`'s handle. -/
theorem c5_move_assign_transfers (h : Heap) (self other : ResourceOwner) :
    (ResourceOwner.moveAssign h self other).2.1.m_id = other.m_id ∧
    (ResourceOwner.moveAssign h self other).2.1.m_name = other.m_name ∧
    (ResourceOwner.moveAssign h self other).2.1.m_resource = other.m_resource ∧
    (ResourceOwner.moveAssign h self other).2.2.m_resource = none ∧
    (self.m_resource = none → (ResourceOwner.moveAssign h self other).1 = h) ∧
    (∀ a, self.m_resource = some a →
      (ResourceOwner.moveAssign h self other).1.freed = a :: h.freed ∧
      a ∉ (ResourceOwner.moveAssign h self other).1.addrs ∧
      (ResourceOwner.moveAssign h self other).1.allocated = h.allocated) := by
  refine ⟨rfl, rfl, rfl, rfl, ?_, ?_⟩
  · intro h0
    simp [ResourceOwner.moveAssign, Heap.deleteP, h0]
  · intro a ha
    refine ⟨?_, ?_, ?_⟩
    · simp [ResourceOwner.moveAssign, Heap.deleteP, ha, Heap.freed_free]
    · simpa [ResourceOwner.moveAssign, Heap.deleteP, ha] using Heap.not_mem_addrs_free h a
    · simp [ResourceOwner.moveAssign, Heap.deleteP, ha, Heap.allocated_free]

/-- Witness for `c5_move_assign_transfers` on a one-cell heap. -/
theorem c5_move_assign_transfers_witness :
    (ResourceOwner.mk 1 "a" (some 0)).m_resource = some 0 ∧
    ((ResourceOwner.moveAssign ⟨1, [(0, ⟨5⟩)], [0], []⟩ ⟨1, "a", some 0⟩ ⟨2, "b", none⟩).1.freed
        = 0 :: ([] : List Nat) ∧
      0 ∉ (ResourceOwner.moveAssign ⟨1, [(0, ⟨5⟩)], [0], []⟩ ⟨1, "a", some 0⟩ ⟨2, "b", none⟩).1.addrs ∧
      (ResourceOwner.moveAssign ⟨1, [(0, ⟨5⟩)], [0], []⟩ ⟨1, "a", some 0⟩ ⟨2, "b", none⟩).1.allocated
        = [0]) :=
  ⟨rfl,
   (c5_move_assign_transfers ⟨1, [(0, ⟨5⟩)], [0], []⟩ ⟨1, "a", some 0⟩ ⟨2, "b", none⟩).2.2.2.2.2
     0 rfl⟩

/-- C4: move construction from an `A` holding a non-null handle gives the new
object `A`'s id, name and exactly `A`'s handle (the heap is untouched, so the
cell's value is untouched), nulls the donor's handle, and leaves the donor
valid: destructing it frees nothing further, copy constructing from it yields
a null-handled copy without allocating, and move assigning into it releases
nothing. -/
theorem c4_move_ctor_transfers (A B : ResourceOwner) (a : Nat) (h : Heap) (w : World)
    (i : Nat) (ha : A.m_resource = some a) :
    (ResourceOwner.moveCtor A).1.m_id = A.m_id ∧
    (ResourceOwner.moveCtor A).1.m_name = A.m_name ∧
    (ResourceOwner.moveCtor A).1.m_resource = some a ∧
    (ResourceOwner.moveCtor A).2.m_resource = none ∧
    ResourceOwner.dtor h (ResourceOwner.moveCtor A).2 = h ∧
    (ResourceOwner.copyCtor h (ResourceOwner.moveCtor A).2).1 = h ∧
    (ResourceOwner.copyCtor h (ResourceOwner.moveCtor A).2).2.m_resource = none ∧
    (ResourceOwner.moveAssign h (ResourceOwner.moveCtor A).2 B).1 = h ∧
    (World.step w (Op.moveCtor i)).heap = w.heap := by
  refine ⟨rfl, rfl, ?_, rfl, rfl, rfl, rfl, rfl, ?_⟩
  · simpa [ResourceOwner.moveCtor] using ha
  · simp only [World.step]
    rcases hi : w.owners[i]? with _ | o <;> simp

/-- Witness for `c4_move_ctor_transfers`. -/
theorem c4_move_ctor_transfers_witness :
    (ResourceOwner.mk 7 "n" (some 3)).m_resource = some 3 ∧
    (ResourceOwner.moveCtor ⟨7, "n", some 3⟩).1.m_resource = some 3 :=
  ⟨rfl,
   (c4_move_ctor_transfers ⟨7, "n", some 3⟩ ⟨0, "", none⟩ 3 Heap.empty World.init 0
     rfl).2.2.1⟩

/-- C8: unguarded self move assignment leaves the object valid: the handle
ends null (through the aliased `other.m_resource = nullptr`), id and name are
preserved, destructing afterwards frees nothing further (no double release),
and the owned cell — when there was one — is released exactly this once,
leaving the live set. -/
theorem c8_self_move_assign_safe (h : Heap) (s : ResourceOwner) :
    (ResourceOwner.moveAssignSelf h s).2.m_resource = none ∧
    (ResourceOwner.moveAssignSelf h s).2.m_id = s.m_id ∧
    (ResourceOwner.moveAssignSelf h s).2.m_name = s.m_name ∧
    ResourceOwner.dtor (ResourceOwner.moveAssignSelf h s).1 (ResourceOwner.moveAssignSelf h s).2
      = (ResourceOwner.moveAssignSelf h s).1 ∧
    (s.m_resource = none → (ResourceOwner.moveAssignSelf h s).1 = h) ∧
    (∀ a, s.m_resource = some a →
      (ResourceOwner.moveAssignSelf h s).1.freed = a :: h.freed ∧
      a ∉ (ResourceOwner.moveAssignSelf h s).1.addrs) := by
  refine ⟨rfl, rfl, rfl, rfl, ?_, ?_⟩
  · intro h0
    simp [ResourceOwner.moveAssignSelf, Heap.deleteP, h0]
  · intro a ha
    constructor
    · simp [ResourceOwner.moveAssignSelf, Heap.deleteP, ha, Heap.freed_free]
    · simpa [ResourceOwner.moveAssignSelf, Heap.deleteP, ha] using Heap.not_mem_addrs_free h a

/-- C2: copy construction is a deep copy: the new object carries `other`'s id
and name and a handle to a freshly allocated cell, distinct from `other`'s
cell but holding the same value; mutating either object's resource through
`set` leaves the other's value untouched; copying a resource-less owner
yields a null handle and allocates nothing. -/
theorem c2_copy_ctor_deep_copy (h : Heap) (A A0 : ResourceOwner) (a : Nat) (x y : Int)
    (ha : A.m_resource = some a) (hmem : a ∈ h.addrs)
    (hbound : ∀ z ∈ h.addrs, z < h.next) (h0 : A0.m_resource = none) :
    (ResourceOwner.copyCtor h A).2.m_id = A.m_id ∧
    (ResourceOwner.copyCtor h A).2.m_name = A.m_name ∧
    (ResourceOwner.copyCtor h A).2.m_resource = some h.next ∧
    h.next ≠ a ∧
    ((ResourceOwner.copyCtor h A).1.read h.next).get = (h.read a).get ∧
    (ResourceOwner.copyCtor h A).1.read a = h.read a ∧
    (ResourceOwner.setResource (ResourceOwner.copyCtor h A).1 (ResourceOwner.copyCtor h A).2 x).read a
      = h.read a ∧
    ((ResourceOwner.setResource (ResourceOwner.copyCtor h A).1 A y).read h.next).get
      = (h.read a).get ∧
    (ResourceOwner.copyCtor h A0).1 = h ∧
    (ResourceOwner.copyCtor h A0).2.m_resource = none := by
  have hlt : a < h.next := hbound a hmem
  have hne : a ≠ h.next := Nat.ne_of_lt hlt
  have hne' : h.next ≠ a := Ne.symm hne
  refine ⟨?_, ?_, ?_, hne', ?_, ?_, ?_, ?_, ?_, ?_⟩
  · simp [ResourceOwner.copyCtor, ha]
  · simp [ResourceOwner.copyCtor, ha]
  · simp [ResourceOwner.copyCtor, ha, Heap.alloc]
  · simp [ResourceOwner.copyCtor, ha, Heap.read_alloc_self, Resource.copyCtor,
      Resource.get]
  · simp [ResourceOwner.copyCtor, ha, Heap.read_alloc_ne _ _ _ hne]
  · simp only [ResourceOwner.copyCtor, ha]
    simp only [ResourceOwner.setResource, Heap.alloc_snd]
    rw [Heap.read_write_ne _ _ _ _ hne, Heap.read_alloc_ne _ _ _ hne]
  · simp only [ResourceOwner.copyCtor, ha]
    simp only [ResourceOwner.setResource, ha, Heap.alloc_snd]
    rw [Heap.read_write_ne _ _ _ _ hne', Heap.read_alloc_self]
    rfl
  · simp [ResourceOwner.copyCtor, h0]
  · simp [ResourceOwner.copyCtor, h0]

/-- Witness for `c2_copy_ctor_deep_copy` on a one-cell heap holding 101. -/
theorem c2_copy_ctor_deep_copy_witness :
    ((ResourceOwner.mk 1 "id1" (some 0)).m_resource = some 0 ∧
      0 ∈ (Heap.mk 1 [(0, ⟨101⟩)] [0] []).addrs ∧
      (∀ z ∈ (Heap.mk 1 [(0, ⟨101⟩)] [0] []).addrs, z < (Heap.mk 1 [(0, ⟨101⟩)] [0] []).next) ∧
      (ResourceOwner.mk 2 "z" none).m_resource = none) ∧
    (ResourceOwner.setResource
        (ResourceOwner.copyCtor ⟨1, [(0, ⟨101⟩)], [0], []⟩ ⟨1, "id1", some 0⟩).1
        (ResourceOwner.copyCtor ⟨1, [(0, ⟨101⟩)], [0], []⟩ ⟨1, "id1", some 0⟩).2 999).read 0
      = (Heap.mk 1 [(0, ⟨101⟩)] [0] []).read 0 :=
  ⟨⟨rfl, by decide, by decide, rfl⟩,
   (c2_copy_ctor_deep_copy ⟨1, [(0, ⟨101⟩)], [0], []⟩ ⟨1, "id1", some 0⟩ ⟨2, "z", none⟩
     0 999 888 rfl (by decide) (by decide) rfl).2.2.2.2.2.2.1⟩

/-- C3: copy assignment (distinct objects) copies id and name and handles the
resource by the source's four-way case split: both own → the value is
assigned in place, the handle and the whole live address set as well as the
allocation and free histories are unchanged (no reallocation); only `this`
owns → its cell is freed and the handle nulled; only `other` owns → a fresh
cell is allocated carrying `other`'s value; neither → complete no-op on the
heap.  The function's result is the updated `this` (the C++ operator returns
`*this`). -/
theorem c3_copy_assign_cases (h : Heap) (self other : ResourceOwner) :
    (ResourceOwner.copyAssign h self other).2.m_id = other.m_id ∧
    (ResourceOwner.copyAssign h self other).2.m_name = other.m_name ∧
    (∀ a b, self.m_resource = some a → other.m_resource = some b →
      (ResourceOwner.copyAssign h self other).2.m_resource = some a ∧
      (ResourceOwner.copyAssign h self other).1.addrs = h.addrs ∧
      (ResourceOwner.copyAssign h self other).1.allocated = h.allocated ∧
      (ResourceOwner.copyAssign h self other).1.freed = h.freed ∧
      (a ∈ h.addrs → ((ResourceOwner.copyAssign h self other).1.read a).get = (h.read b).get)) ∧
    (∀ a, self.m_resource = some a → other.m_resource = none →
      (ResourceOwner.copyAssign h self other).2.m_resource = none ∧
      (ResourceOwner.copyAssign h self other).1.freed = a :: h.freed ∧
      a ∉ (ResourceOwner.copyAssign h self other).1.addrs) ∧
    (∀ b, self.m_resource = none → other.m_resource = some b →
      (ResourceOwner.copyAssign h self other).2.m_resource = some h.next ∧
      (ResourceOwner.copyAssign h self other).1.allocated = h.next :: h.allocated ∧
      (ResourceOwner.copyAssign h self other).1.freed = h.freed ∧
      ((ResourceOwner.copyAssign h self other).1.read h.next).get = (h.read b).get) ∧
    (self.m_resource = none → other.m_resource = none →
      ResourceOwner.copyAssign h self other = (h, ⟨other.m_id, other.m_name, none⟩)) := by
  refine ⟨?_, ?_, ?_, ?_, ?_, ?_⟩
  · rcases hs : self.m_resource with _ | a <;> rcases ho : other.m_resource with _ | b <;>
      simp [ResourceOwner.copyAssign, hs, ho]
  · rcases hs : self.m_resource with _ | a <;> rcases ho : other.m_resource with _ | b <;>
      simp [ResourceOwner.copyAssign, hs, ho]
  · intro a b hs ho
    simp only [ResourceOwner.copyAssign, hs, ho]
    refine ⟨trivial, Heap.addrs_write h a _, rfl, rfl, ?_⟩
    intro hmem
    rw [Heap.read_write_self _ _ _ hmem]
    rfl
  · intro a hs ho
    simp only [ResourceOwner.copyAssign, hs, ho]
    exact ⟨trivial, rfl, Heap.not_mem_addrs_free h a⟩
  · intro b hs ho
    simp only [ResourceOwner.copyAssign, hs, ho]
    refine ⟨rfl, rfl, rfl, ?_⟩
    rw [Heap.read_alloc_self]
    rfl
  · intro hs ho
    simp [ResourceOwner.copyAssign, hs, ho]

/-- Witness for `c3_copy_assign_cases`: both sides own a cell; the in-place
value assignment is observed at the same handle. -/
theorem c3_copy_assign_cases_witness :
    ((ResourceOwner.mk 1 "s" (some 0)).m_resource = some 0 ∧
      (ResourceOwner.mk 2 "t" (some 1)).m_resource = some 1 ∧
      0 ∈ (Heap.mk 2 [(0, ⟨1⟩), (1, ⟨2⟩)] [1, 0] []).addrs) ∧
    ((ResourceOwner.copyAssign ⟨2, [(0, ⟨1⟩), (1, ⟨2⟩)] , [1, 0], []⟩ ⟨1, "s", some 0⟩
        ⟨2, "t", some 1⟩).2.m_resource = some 0 ∧
      ((ResourceOwner.copyAssign ⟨2, [(0, ⟨1⟩), (1, ⟨2⟩)] , [1, 0], []⟩ ⟨1, "s", some 0⟩
          ⟨2, "t", some 1⟩).1.read 0).get
        = ((Heap.mk 2 [(0, ⟨1⟩), (1, ⟨2⟩)] [1, 0] []).read 1).get) := by
  have hmain := (c3_copy_assign_cases ⟨2, [(0, ⟨1⟩), (1, ⟨2⟩)], [1, 0], []⟩ ⟨1, "s", some 0⟩
    ⟨2, "t", some 1⟩).2.2.1 0 1 rfl rfl
  exact ⟨⟨rfl, rfl, by decide⟩, hmain.1, hmain.2.2.2.2 (by decide)⟩

/-- C7 counterexample: with `this = {1, "a", nullptr}`, `other = {2, "b", cell 0}`
and a failing allocation, the error state carries `this` with id 2 and name
"b" — id and name were already overwritten when the exception propagated, so
`this` is NOT left completely unmodified as the claim states. -/
theorem c7_counterexample :
    ResourceOwner.copyAssignExc ⟨1, [(0, ⟨5⟩)], [0], []⟩ ⟨1, "a", none⟩ ⟨2, "b", some 0⟩ false
      = Except.error (⟨1, [(0, ⟨5⟩)], [0], []⟩, ⟨2, "b", none⟩) ∧
    (ResourceOwner.mk 2 "b" none).m_id ≠ (ResourceOwner.mk 1 "a" none).m_id ∧
    (ResourceOwner.mk 2 "b" none).m_name ≠ (ResourceOwner.mk 1 "a" none).m_name :=
  ⟨rfl, by decide, by decide⟩

/-- C7 (amended): when the allocation in the only-`other`-owns branch of copy
assignment fails, the failure propagates and `this`'s resource state is
unchanged — the handle is still null, nothing was released or leaked, and the
heap is untouched — but `m_id` and `m_name` have already been assigned from
`other` (basic guarantee only, not the strong guarantee).  With a succeeding
allocation the exception-aware model agrees with `copyAssign` everywhere. -/
theorem c7_alloc_failure_basic_guarantee (h : Heap) (self other : ResourceOwner) (b : Nat)
    (hs : self.m_resource = none) (ho : other.m_resource = some b) :
    ResourceOwner.copyAssignExc h self other false
      = Except.error (h, ⟨other.m_id, other.m_name, none⟩) ∧
    (∀ (h2 : Heap) (s2 o2 : ResourceOwner),
      ResourceOwner.copyAssignExc h2 s2 o2 true
        = Except.ok (ResourceOwner.copyAssign h2 s2 o2)) := by
  constructor
  · simp [ResourceOwner.copyAssignExc, hs, ho]
  · intro h2 s2 o2
    rcases hs2 : s2.m_resource with _ | a2 <;> rcases ho2 : o2.m_resource with _ | b2 <;>
      simp [ResourceOwner.copyAssignExc, ResourceOwner.copyAssign, hs2, ho2]

/-- Witness for `c7_alloc_failure_basic_guarantee`. -/
theorem c7_alloc_failure_basic_guarantee_witness :
    ((ResourceOwner.mk 1 "a" none).m_resource = none ∧
      (ResourceOwner.mk 2 "b" (some 0)).m_resource = some 0) ∧
    ResourceOwner.copyAssignExc ⟨1, [(0, ⟨5⟩)], [0], []⟩ ⟨1, "a", none⟩ ⟨2, "b", some 0⟩ false
      = Except.error (⟨1, [(0, ⟨5⟩)], [0], []⟩, ⟨2, "b", none⟩) :=
  ⟨⟨rfl, rfl⟩,
   (c7_alloc_failure_basic_guarantee ⟨1, [(0, ⟨5⟩)], [0], []⟩ ⟨1, "a", none⟩ ⟨2, "b", some 0⟩
     0 rfl rfl).1⟩

/-- Witness for `c8_self_move_assign_safe` on a one-cell heap. -/
theorem c8_self_move_assign_safe_witness :
    (ResourceOwner.mk 1 "a" (some 0)).m_resource = some 0 ∧
    ((ResourceOwner.moveAssignSelf ⟨1, [(0, ⟨9⟩)], [0], []⟩ ⟨1, "a", some 0⟩).1.freed
        = 0 :: ([] : List Nat) ∧
      0 ∉ (ResourceOwner.moveAssignSelf ⟨1, [(0, ⟨9⟩)], [0], []⟩ ⟨1, "a", some 0⟩).1.addrs) :=
  ⟨rfl,
   (c8_self_move_assign_safe ⟨1, [(0, ⟨9⟩)], [0], []⟩ ⟨1, "a", some 0⟩).2.2.2.2.2 0 rfl⟩
